import Mathlib

/-!
Shallow embedding of the course-recommendation engine
(`cosine_faiss_utils.py` and `recommender_agent.py`).

Modelling conventions:
* Embedding vectors are lists of rationals (`Vec`); float arithmetic is
  modelled exactly over `ℚ`.
* The external sentence-transformer is an opaque parameter
  `encode : String → Vec`; the normalisation step `v / ‖v‖₂` is not
  rational-representable, so unit length (`sqNorm v = 1`) enters the
  theorems as a hypothesis where the reasoning needs it.
* `faiss.IndexFlatL2` is modelled per its documented behaviour: `search`
  returns *squared* L2 distances in ascending order (ties by ascending
  stored id, per the spec's VectorIndex contract), and when `k` exceeds
  `ntotal` the result rows are padded with label `-1` and a huge
  distance (`padDist`, standing in for `FLT_MAX`).
* `pandas`' `df.iloc[i]` accepts negative positions (counting from the
  end) and raises `IndexError` out of range; fallible code is modelled
  with `Except`.
-/

set_option maxRecDepth 8000

instance {ε α : Type} [DecidableEq ε] [DecidableEq α] : DecidableEq (Except ε α) :=
  fun a b =>
    match a, b with
    | .error e, .error f =>
      if h : e = f then isTrue (congrArg Except.error h)
      else isFalse fun hh => h (by cases hh; rfl)
    | .ok x, .ok y =>
      if h : x = y then isTrue (congrArg Except.ok h)
      else isFalse fun hh => h (by cases hh; rfl)
    | .error _, .ok _ => isFalse fun hh => Except.noConfusion hh
    | .ok _, .error _ => isFalse fun hh => Except.noConfusion hh

namespace CourseRec

/-- An embedding vector, a finite sequence of (exact) numbers. -/
abbrev Vec : Type := List ℚ

/-- Squared L2 norm of a vector. -/
def sqNorm (v : Vec) : ℚ := (v.map fun a => a * a).sum

/-- Squared L2 distance between two vectors (the metric computed by
`faiss.IndexFlatL2`). -/
def sqDist (u v : Vec) : ℚ := (List.zipWith (fun a b => (a - b) * (a - b)) u v).sum

/-- Model of a `faiss.IndexFlatL2` object: the stored vectors, id `i`
being the `i`-th added vector. -/
structure FaissIndex where
  vectors : List Vec
deriving DecidableEq

/-- Number of stored vectors (`index.ntotal`). -/
def FaissIndex.ntotal (ix : FaissIndex) : ℕ := ix.vectors.length

/-- Stand-in for the `FLT_MAX`-like distance faiss reports on padding
rows when fewer than `k` neighbours exist. -/
def padDist : ℚ := 2 ^ 128

/-- Ordering used by the nearest-neighbour search: ascending squared
distance, ties broken by ascending stored id. -/
def entryLE (a b : ℤ × ℚ) : Prop := a.2 < b.2 ∨ (a.2 = b.2 ∧ a.1 ≤ b.1)

instance : DecidableRel entryLE := fun a b =>
  inferInstanceAs (Decidable (a.2 < b.2 ∨ (a.2 = b.2 ∧ a.1 ≤ b.1)))

instance : IsTotal (ℤ × ℚ) entryLE where
  total a b := by
    unfold entryLE
    rcases lt_trichotomy a.2 b.2 with h | h | h
    · exact Or.inl (Or.inl h)
    · rcases le_total a.1 b.1 with h1 | h1
      · exact Or.inl (Or.inr ⟨h, h1⟩)
      · exact Or.inr (Or.inr ⟨h.symm, h1⟩)
    · exact Or.inr (Or.inl h)

instance : IsTrans (ℤ × ℚ) entryLE where
  trans a b c hab hbc := by
    unfold entryLE at hab hbc ⊢
    rcases hab with h | ⟨h1, h2⟩ <;> rcases hbc with h' | ⟨h1', h2'⟩
    · exact Or.inl (lt_trans h h')
    · exact Or.inl (h1' ▸ h)
    · exact Or.inl (h1 ▸ h')
    · exact Or.inr ⟨h1.trans h1', h2.trans h2'⟩

/-- All stored vectors scored against a query: id paired with squared
distance, ids counted from `i`. -/
def scoredFrom (q : Vec) : ℕ → List Vec → List (ℤ × ℚ)
  | _, [] => []
  | i, v :: vs => ((i : ℤ), sqDist q v) :: scoredFrom q (i + 1) vs

/-- All stored vectors of the index scored against a query. -/
def scoredList (ix : FaissIndex) (q : Vec) : List (ℤ × ℚ) :=
  scoredFrom q 0 ix.vectors

/-- The true nearest neighbours: scored entries sorted ascending, first
`k` kept (`k ≤ 0` yields none). -/
def searchHits (ix : FaissIndex) (q : Vec) (k : ℤ) : List (ℤ × ℚ) :=
  (List.insertionSort entryLE (scoredList ix q)).take k.toNat

/-- Model of `index.search(query, k)` (row 0 of faiss's output arrays,
as (id, squared distance) pairs): the `min(k, ntotal)` nearest entries
ascending, padded to `k` rows with label `-1` and a huge distance, as
faiss documents when not enough neighbours exist. -/
def FaissIndex.search (ix : FaissIndex) (q : Vec) (k : ℤ) : List (ℤ × ℚ) :=
  searchHits ix q k
    ++ List.replicate (k.toNat - (searchHits ix q k).length) ((-1 : ℤ), padDist)

/-- Model of pandas `df.iloc[idx]` for possibly negative `idx`:
negative positions count from the end; `none` models the `IndexError`
raised when the position is out of range. -/
def dfIloc {α : Type} (df : List α) (idx : ℤ) : Option α :=
  if idx < 0 then
    if 0 ≤ (df.length : ℤ) + idx then df[((df.length : ℤ) + idx).toNat]? else none
  else
    df[idx.toNat]?

/-- The result-collection loop of `search_faiss_index`: for each
`(idx, similarity)` pair, if `idx < len(df)` look the row up with
`df.iloc[idx]` (whose `IndexError` aborts the whole call), otherwise
skip the entry. -/
def collectRecs {α : Type} (df : List α) : List (ℤ × ℚ) → Except String (List (α × ℚ))
  | [] => .ok []
  | (idx, sim) :: rest =>
    if idx < (df.length : ℤ) then
      match dfIloc df idx with
      | some course =>
        match collectRecs df rest with
        | .ok out => .ok ((course, sim) :: out)
        | .error e => .error e
      | none => .error "IndexError"
    else
      collectRecs df rest

/-- The `(id, similarity)` pairs of `search_faiss_index`:
`similarities = (2 - distances[0] ** 2) / 2` applied to the faiss
output (which already holds squared distances). -/
def simList (ix : FaissIndex) (q : Vec) (k : ℤ) : List (ℤ × ℚ) :=
  (ix.search q k).map fun p => (p.1, (2 - p.2 * p.2) / 2)

/-- Model of `search_faiss_index(query, index, df, top_k)` from
`cosine_faiss_utils.py`: `None` guards, query embedding, faiss search,
distance-to-similarity conversion and the result-collection loop.
`encode` stands for the external sentence-transformer composed with the
normalisation step. -/
def search_faiss_index {α : Type} (encode : String → Vec) (query : String)
    (index : Option FaissIndex) (df : Option (List α)) (top_k : ℤ) :
    Except String (List (α × ℚ)) :=
  match index, df with
  | some ix, some rows => collectRecs rows (simList ix (encode query) top_k)
  | _, _ => .ok []

/-- The artifacts `load_faiss_index` reads from disk:
`course_index.faiss` and `processed_courses.csv`, `none` when the file
is absent. -/
structure Storage (α : Type) where
  course_index : Option FaissIndex
  processed_courses : Option (List α)

/-- Model of `load_faiss_index()`: reads both artifacts; any
`FileNotFoundError` (either file absent) is caught and `(None, None)`
returned; otherwise the pair is returned as read, with no further
validation. -/
def load_faiss_index {α : Type} (s : Storage α) :
    Option FaissIndex × Option (List α) :=
  match s.course_index, s.processed_courses with
  | some ix, some rows => (some ix, some rows)
  | _, _ => (none, none)

/-- Model of the `CourseRecommender` state after `__init__`: the loaded
index and dataframe (either may be `None`). -/
structure CourseRecommender (α : Type) where
  index : Option FaissIndex
  df : Option (List α)

/-- Model of `CourseRecommender.__init__`: populate the fields from
`load_faiss_index()`. -/
def CourseRecommender.init {α : Type} (s : Storage α) : CourseRecommender α :=
  ⟨(load_faiss_index s).1, (load_faiss_index s).2⟩

/-- Model of `CourseRecommender.is_ready()`:
`self.index is not None and self.df is not None`. -/
def CourseRecommender.is_ready {α : Type} (r : CourseRecommender α) : Bool :=
  r.index.isSome && r.df.isSome

/-- Model of `CourseRecommender.get_recommendations(query, top_k)`:
returns `[]` when the index or dataframe is `None`, otherwise delegates
to `search_faiss_index`. -/
def CourseRecommender.get_recommendations {α : Type} (encode : String → Vec)
    (r : CourseRecommender α) (query : String) (top_k : ℤ) :
    Except String (List (α × ℚ)) :=
  match r.index, r.df with
  | some ix, some rows => search_faiss_index encode query (some ix) (some rows) top_k
  | _, _ => .ok []

/-- Numeric value of a decimal digit, `none` otherwise. -/
def charDigit (c : Char) : Option ℕ :=
  if c.isDigit then some (c.toNat - 48) else none

/-- Value of a digit string in base 10 (`some 0` on the empty list;
callers check non-emptiness). -/
def digitsVal (cs : List Char) : Option ℕ :=
  cs.foldl (fun acc c => acc.bind fun n => (charDigit c).map fun d => 10 * n + d)
    (some 0)

/-- Unsigned decimal numeral, with an optional single decimal point
(`"1."` and `".5"` are accepted, as by `pd.to_numeric`). -/
def parseUnsigned (cs : List Char) : Option ℚ :=
  match cs.dropWhile (fun c => c != '.') with
  | [] =>
    if cs.isEmpty then none else (digitsVal cs).map fun n => (n : ℚ)
  | _ :: fpart =>
    let ipart := cs.takeWhile (fun c => c != '.')
    if ipart.isEmpty && fpart.isEmpty then none
    else
      match digitsVal ipart, digitsVal fpart with
      | some n, some f => some ((n : ℚ) + (f : ℚ) / (10 : ℚ) ^ fpart.length)
      | _, _ => none

/-- Model of `pd.to_numeric(x, errors='coerce')` on a single cleaned
string: optional sign then an unsigned numeral; `none` models `NaN`. -/
def toNumeric (cs : List Char) : Option ℚ :=
  match cs with
  | '-' :: rest => (parseUnsigned rest).map fun q => -q
  | '+' :: rest => parseUnsigned rest
  | cs => parseUnsigned cs

/-- Python's `str.strip()`: drop whitespace from both ends. -/
def pyStrip (cs : List Char) : List Char :=
  ((cs.dropWhile Char.isWhitespace).reverse.dropWhile Char.isWhitespace).reverse

/-- The character deletion of the source's `re.sub` with the
comma-slash-hyphen character class: every comma, slash and hyphen is
removed, wherever it occurs. -/
def stripPriceChars (cs : List Char) : List Char :=
  cs.filter fun c => !(c == ',' || c == '/' || c == '-')

/-- Model of the price-cleaning step of `create_and_save_faiss_index`
applied to one raw cell: `fillna('0')`, then the `re.sub` deletion of
commas, slashes and hyphens followed by `.strip()`, then
`pd.to_numeric(..., errors='coerce').fillna(0)`. -/
def cleanPrice (raw : Option String) : ℚ :=
  (toNumeric (pyStrip (stripPriceChars (raw.getD "0").data))).getD 0

/-- Drop a trailing slash-hyphen currency suffix, keep anything else. -/
def dropSlashDashSuffix (cs : List Char) : List Char :=
  match cs.reverse with
  | '-' :: '/' :: rest => rest.reverse
  | _ => cs

/-- Follows the spec's words, for comparison with `cleanPrice`: strip
only thousands-separator commas and a trailing slash-hyphen currency
suffix, then coerce, defaulting to 0. -/
def cleanPriceSpecStyle (raw : Option String) : ℚ :=
  (toNumeric (pyStrip
    ((dropSlashDashSuffix (raw.getD "0").data).filter fun c => c != ','))).getD 0

/-! Helper lemmas about the embedded operations. -/

theorem sqNorm_nonneg (v : Vec) : 0 ≤ sqNorm v := by
  induction v with
  | nil => simp [sqNorm]
  | cons a v ih =>
    simp only [sqNorm, List.map_cons, List.sum_cons]
    exact add_nonneg (mul_self_nonneg a) ih

theorem sqDist_nonneg (u : Vec) : ∀ v, 0 ≤ sqDist u v := by
  induction u with
  | nil => intro v; simp [sqDist]
  | cons a u ih =>
    intro v
    cases v with
    | nil => simp [sqDist]
    | cons b v =>
      have h := ih v
      simp only [sqDist, List.zipWith_cons_cons, List.sum_cons]
      exact add_nonneg (mul_self_nonneg (a - b)) h

theorem sqDist_le_sqNorms (u : Vec) : ∀ v, sqDist u v ≤ 2 * sqNorm u + 2 * sqNorm v := by
  induction u with
  | nil =>
    intro v
    have h1 : 0 ≤ (v.map fun a => a * a).sum := sqNorm_nonneg v
    simp only [sqDist, List.zipWith_nil_left, List.sum_nil, sqNorm, List.map_nil]
    linarith
  | cons a u ih =>
    intro v
    cases v with
    | nil =>
      have h1 : 0 ≤ ((a :: u).map fun x => x * x).sum := sqNorm_nonneg (a :: u)
      simp only [sqDist, List.zipWith_nil_right, List.sum_nil, sqNorm, List.map_nil]
      linarith
    | cons b v =>
      have h := ih v
      have hab : (a - b) * (a - b) ≤ 2 * (a * a) + 2 * (b * b) := by
        nlinarith [mul_self_nonneg (a + b)]
      simp only [sqDist, List.zipWith_cons_cons, List.sum_cons, sqNorm, List.map_cons] at h ⊢
      linarith

theorem scoredFrom_mem {q : Vec} :
    ∀ {i : ℕ} {vs : List Vec} {p : ℤ × ℚ},
      p ∈ scoredFrom q i vs → ∃ v ∈ vs, p.2 = sqDist q v := by
  intro i vs
  induction vs generalizing i with
  | nil => intro p h; simp [scoredFrom] at h
  | cons v vs ih =>
    intro p h
    simp only [scoredFrom, List.mem_cons] at h
    rcases h with h | h
    · exact ⟨v, List.mem_cons_self v vs, by rw [h]⟩
    · obtain ⟨w, hw, hp⟩ := ih h
      exact ⟨w, List.mem_cons_of_mem v hw, hp⟩

theorem searchHits_mem {ix : FaissIndex} {q : Vec} {k : ℤ} {p : ℤ × ℚ}
    (h : p ∈ searchHits ix q k) : ∃ v ∈ ix.vectors, p.2 = sqDist q v := by
  unfold searchHits at h
  have h1 : p ∈ List.insertionSort entryLE (scoredList ix q) := List.mem_of_mem_take h
  rw [List.mem_insertionSort] at h1
  exact scoredFrom_mem h1

theorem padDist_pos : (0 : ℚ) < padDist := by norm_num [padDist]

theorem searchHits_dist_lt {ix : FaissIndex} {q : Vec} {k : ℤ}
    (hq : sqNorm q = 1) (hv : ∀ v ∈ ix.vectors, sqNorm v = 1) :
    ∀ p ∈ searchHits ix q k, p.2 < padDist := by
  intro p hp
  obtain ⟨v, hvmem, hp2⟩ := searchHits_mem hp
  have hb := sqDist_le_sqNorms q v
  rw [hq, hv v hvmem] at hb
  have : (4 : ℚ) < padDist := by norm_num [padDist]
  rw [hp2]
  linarith

theorem search_dist_nonneg (ix : FaissIndex) (q : Vec) (k : ℤ) :
    ∀ p ∈ ix.search q k, 0 ≤ p.2 := by
  intro p hp
  unfold FaissIndex.search at hp
  rw [List.mem_append] at hp
  rcases hp with hp | hp
  · obtain ⟨v, _, hp2⟩ := searchHits_mem hp
    rw [hp2]
    exact sqDist_nonneg q v
  · rw [List.eq_of_mem_replicate hp]
    exact le_of_lt padDist_pos

theorem search_sorted {ix : FaissIndex} {q : Vec} (k : ℤ)
    (hq : sqNorm q = 1) (hv : ∀ v ∈ ix.vectors, sqNorm v = 1) :
    List.Pairwise entryLE (ix.search q k) := by
  unfold FaissIndex.search
  rw [List.pairwise_append]
  refine ⟨?_, ?_, ?_⟩
  · exact List.Pairwise.sublist (List.take_sublist _ _)
      (List.sorted_insertionSort entryLE (scoredList ix q))
  · rw [List.pairwise_replicate]
    exact Or.inr (Or.inr ⟨rfl, le_refl _⟩)
  · intro a ha b hb
    rw [List.eq_of_mem_replicate hb]
    exact Or.inl (searchHits_dist_lt hq hv a ha)

theorem simList_sorted (ix : FaissIndex) (q : Vec) (k : ℤ)
    (hq : sqNorm q = 1) (hv : ∀ v ∈ ix.vectors, sqNorm v = 1) :
    List.Pairwise (fun a b : ℤ × ℚ => b.2 < a.2 ∨ (a.2 = b.2 ∧ a.1 ≤ b.1))
      (simList ix q k) := by
  unfold simList
  rw [List.pairwise_map]
  have hs := search_sorted k hq hv
  have hnn := search_dist_nonneg ix q k
  refine hs.imp_of_mem ?_
  intro a b ha hb hab
  have h0a := hnn a ha
  rcases hab with h | ⟨h1, h2⟩
  · left
    have hsq : a.2 * a.2 < b.2 * b.2 := by nlinarith
    show (2 - b.2 * b.2) / 2 < (2 - a.2 * a.2) / 2
    linarith
  · right
    exact ⟨by show (2 - a.2 * a.2) / 2 = (2 - b.2 * b.2) / 2; rw [h1], h2⟩

theorem collectRecs_sublist {α : Type} (rows : List α) :
    ∀ (l : List (ℤ × ℚ)) (out : List (α × ℚ)),
      collectRecs rows l = .ok out →
        List.Sublist (out.map Prod.snd) (l.map Prod.snd) := by
  intro l
  induction l with
  | nil =>
    intro out h
    simp only [collectRecs, Except.ok.injEq] at h
    rw [← h]
    simp
  | cons p rest ih =>
    intro out h
    obtain ⟨idx, sim⟩ := p
    simp only [collectRecs] at h
    by_cases hlt : idx < (rows.length : ℤ)
    · rw [if_pos hlt] at h
      cases hiloc : dfIloc rows idx with
      | none => rw [hiloc] at h; exact absurd h (by simp)
      | some c =>
        rw [hiloc] at h
        cases hrec : collectRecs rows rest with
        | error e => rw [hrec] at h; exact absurd h (by simp)
        | ok out' =>
          rw [hrec] at h
          simp only [Except.ok.injEq] at h
          rw [← h]
          simp only [List.map_cons]
          exact (ih out' hrec).cons₂ sim
    · rw [if_neg hlt] at h
      simp only [List.map_cons]
      exact (ih out h).cons sim

theorem dfIloc_some_lt {α : Type} {rows : List α} {i : ℤ} {c : α}
    (h : dfIloc rows i = some c) : i < (rows.length : ℤ) := by
  by_cases hneg : i < 0
  · omega
  · unfold dfIloc at h
    rw [if_neg hneg] at h
    rw [List.getElem?_eq_some_iff] at h
    obtain ⟨hlt, _⟩ := h
    omega

theorem collectRecs_mem {α : Type} (rows : List α) :
    ∀ (l : List (ℤ × ℚ)) (out : List (α × ℚ)) (idx : ℤ) (sim : ℚ) (c : α),
      collectRecs rows l = .ok out → (idx, sim) ∈ l → dfIloc rows idx = some c →
      (c, sim) ∈ out := by
  intro l
  induction l with
  | nil => intro out idx sim c _ hmem _; simp at hmem
  | cons p rest ih =>
    intro out idx sim c h hmem hiloc
    obtain ⟨i0, s0⟩ := p
    simp only [collectRecs] at h
    rw [List.mem_cons] at hmem
    by_cases hlt : i0 < (rows.length : ℤ)
    · rw [if_pos hlt] at h
      cases hiloc0 : dfIloc rows i0 with
      | none => rw [hiloc0] at h; exact absurd h (by simp)
      | some c0 =>
        rw [hiloc0] at h
        cases hrec : collectRecs rows rest with
        | error e => rw [hrec] at h; exact absurd h (by simp)
        | ok out' =>
          rw [hrec] at h
          simp only [Except.ok.injEq] at h
          rw [← h]
          rcases hmem with hmem | hmem
          · simp only [Prod.mk.injEq] at hmem
            obtain ⟨hi, hs⟩ := hmem
            rw [hi] at hiloc
            rw [hiloc] at hiloc0
            simp only [Option.some.injEq] at hiloc0
            rw [← hiloc0, hs]
            exact List.mem_cons_self _ _
          · exact List.mem_cons_of_mem _ (ih out' idx sim c hrec hmem hiloc)
    · rw [if_neg hlt] at h
      rcases hmem with hmem | hmem
      · simp only [Prod.mk.injEq] at hmem
        obtain ⟨hi, _⟩ := hmem
        rw [hi] at hiloc
        exact absurd (dfIloc_some_lt hiloc) hlt
      · exact ih out idx sim c h hmem hiloc

theorem dfIloc_neg_one {α : Type} (rows : List α) (h : rows ≠ []) :
    dfIloc rows (-1) = some (rows.getLast h) := by
  have hlen : 0 < rows.length := List.length_pos.mpr h
  unfold dfIloc
  rw [if_pos (show (-1 : ℤ) < 0 by norm_num)]
  rw [if_pos (show (0 : ℤ) ≤ (rows.length : ℤ) + (-1) by omega)]
  have ht : ((rows.length : ℤ) + (-1)).toNat = rows.length - 1 := by omega
  rw [ht, List.getLast_eq_getElem]
  exact List.getElem?_eq_getElem (by omega)

/-! Claim theorems. -/

/-- C1: the claim says each squared L2 distance d² reported by the index is
converted to the score 1 - d²/2. On the stored unit vector [0,1] and unit
query [1,0] the squared distance is 2, so the claimed score is
1 - 2/2 = 0, but the code squares the already-squared faiss distance and
returns (2 - 2²)/2 = -1. -/
theorem C1_code_eval :
    search_faiss_index (fun _ => [(1 : ℚ), 0]) "query" (some ⟨[[0, 1]]⟩)
        (some [(0 : ℕ)]) 1 = .ok [(0, -1)] ∧
    sqDist [(1 : ℚ), 0] [0, 1] = 2 ∧
    1 - sqDist [(1 : ℚ), 0] [0, 1] / 2 = 0 ∧
    ((-1 : ℚ) ≠ 0) := by
  refine ⟨?_, ?_, ?_, ?_⟩
  · norm_num [search_faiss_index, simList, FaissIndex.search, searchHits,
      scoredList, scoredFrom, sqDist, entryLE, collectRecs, dfIloc,
      List.insertionSort, List.orderedInsert, padDist]
  · norm_num [sqDist]
  · norm_num [sqDist]
  · norm_num

/-- C2: the claim says k > N yields exactly N results. With a corpus of
N = 1 vector and k = 2, the code returns 2 results: the faiss padding row
(label -1, huge distance) passes the `idx < len(df)` guard and is paired
with the last metadata row. -/
theorem C2_code_eval :
    search_faiss_index (fun _ => [(1 : ℚ), 0]) "query" (some ⟨[[1, 0]]⟩)
        (some [(0 : ℕ)]) 2 =
      .ok [(0, 1), (0, (2 - padDist * padDist) / 2)] ∧
    ([(0 : ℕ)] : List ℕ).length = 1 ∧
    ([((0 : ℕ), (1 : ℚ)), (0, (2 - padDist * padDist) / 2)]).length = 2 := by
  refine ⟨?_, rfl, rfl⟩
  norm_num [search_faiss_index, simList, FaissIndex.search, searchHits,
    scoredList, scoredFrom, sqDist, entryLE, collectRecs, dfIloc,
    List.insertionSort, List.orderedInsert, padDist, Int.toNat_ofNat,
    List.replicate]

/-- C3 counterexample: a stored index with 2 vectors and a metadata table
with 3 rows loads successfully as a pair instead of failing, so the
mandatory row-count (IndexCorrupt) check claimed by the spec is absent. -/
theorem C3_counterexample :
    load_faiss_index (Storage.mk (some ⟨[[(1 : ℚ), 0], [0, 1]]⟩)
        (some [(0 : ℕ), 1, 2])) =
      (some ⟨[[(1 : ℚ), 0], [0, 1]]⟩, some [(0 : ℕ), 1, 2]) ∧
    (FaissIndex.mk [[(1 : ℚ), 0], [0, 1]]).ntotal ≠ ([(0 : ℕ), 1, 2]).length := by
  exact ⟨rfl, by decide⟩

/-- C3 amended: loading returns the sentinel (None, None) when either
artifact is missing, and otherwise returns the stored pair unchanged with
no row-count validation, even when the counts disagree. -/
theorem C3_amended {α : Type} (s : Storage α) :
    ((s.course_index = none ∨ s.processed_courses = none) →
      load_faiss_index s = (none, none)) ∧
    (∀ ix rows, s.course_index = some ix → s.processed_courses = some rows →
      load_faiss_index s = (some ix, some rows)) := by
  obtain ⟨ci, pc⟩ := s
  cases ci <;> cases pc <;>
    refine ⟨fun h => ?_, fun ix rows h1 h2 => ?_⟩ <;>
    simp_all [load_faiss_index]

/-- C3 amended, witness: a mismatched pair (1 vector, 2 rows) loads
unchanged, and a storage missing the index file loads as (None, None). -/
theorem C3_amended_witness :
    load_faiss_index (Storage.mk (some (FaissIndex.mk [[(1 : ℚ)]]))
        (some [(5 : ℕ), 6])) =
      (some (FaissIndex.mk [[(1 : ℚ)]]), some [(5 : ℕ), 6]) ∧
    load_faiss_index (Storage.mk (α := ℕ) none (some [(5 : ℕ)])) = (none, none) :=
  ⟨(C3_amended _).2 _ _ rfl rfl, (C3_amended _).1 (Or.inl rfl)⟩

/-- C4: the claim bounds every returned score by [-1 - ε, 1 + ε]. For the
antipodal unit pair (query [1,0], stored [-1,0]) the squared distance is 4
and the code returns (2 - 4²)/2 = -7, far below the claimed bound. -/
theorem C4_code_eval :
    search_faiss_index (fun _ => [(1 : ℚ), 0]) "query" (some ⟨[[-1, 0]]⟩)
        (some [(0 : ℕ)]) 1 = .ok [(0, -7)] ∧
    sqNorm [(1 : ℚ), 0] = 1 ∧ sqNorm [(-1 : ℚ), 0] = 1 ∧
    ((-7 : ℚ) < -1 - 1 / 100) := by
  refine ⟨?_, ?_, ?_, ?_⟩
  · norm_num [search_faiss_index, simList, FaissIndex.search, searchHits,
      scoredList, scoredFrom, sqDist, entryLE, collectRecs, dfIloc,
      List.insertionSort, List.orderedInsert, padDist]
  · norm_num [sqNorm]
  · norm_num [sqNorm]
  · norm_num

/-- C5: for every query with a unit-norm embedding over unit-norm stored
vectors, the recommendation list has non-increasing similarity scores, and
the underlying (id, similarity) sequence is sorted with strictly
decreasing scores except for ties, which appear in ascending original
index position order. -/
theorem C5_ranking {α : Type} (encode : String → Vec) (query : String)
    (ix : FaissIndex) (rows : List α) (k : ℤ) (recs : List (α × ℚ))
    (hq : sqNorm (encode query) = 1)
    (hv : ∀ v ∈ ix.vectors, sqNorm v = 1)
    (hok : search_faiss_index encode query (some ix) (some rows) k = .ok recs) :
    List.Pairwise (fun a b : α × ℚ => b.2 ≤ a.2) recs ∧
    List.Pairwise (fun a b : ℤ × ℚ => b.2 < a.2 ∨ (a.2 = b.2 ∧ a.1 ≤ b.1))
      (simList ix (encode query) k) := by
  have hsim := simList_sorted ix (encode query) k hq hv
  constructor
  · have hok' : collectRecs rows (simList ix (encode query) k) = .ok recs := hok
    have hsub := collectRecs_sublist rows _ recs hok'
    have h1 : List.Pairwise (fun x y : ℚ => y ≤ x)
        ((simList ix (encode query) k).map Prod.snd) := by
      rw [List.pairwise_map]
      refine hsim.imp ?_
      intro a b hab
      rcases hab with h | ⟨h1, _⟩
      · exact le_of_lt h
      · exact le_of_eq h1.symm
    have h2 : List.Pairwise (fun x y : ℚ => y ≤ x) (recs.map Prod.snd) :=
      List.Pairwise.sublist hsub h1
    rw [List.pairwise_map] at h2
    exact h2
  · exact hsim

/-- C5 witness: a concrete two-vector corpus where the hypotheses hold and
the returned scores 1, -1 are non-increasing. -/
theorem C5_ranking_witness :
    (sqNorm [(1 : ℚ), 0] = 1 ∧
      (∀ v ∈ ([[0, 1], [1, 0]] : List Vec), sqNorm v = 1) ∧
      search_faiss_index (fun _ => [(1 : ℚ), 0]) "query" (some ⟨[[0, 1], [1, 0]]⟩)
          (some [(10 : ℕ), 20]) 2 = .ok [(20, 1), (10, -1)]) ∧
    (List.Pairwise (fun a b : ℕ × ℚ => b.2 ≤ a.2) [((20 : ℕ), (1 : ℚ)), (10, -1)] ∧
      List.Pairwise (fun a b : ℤ × ℚ => b.2 < a.2 ∨ (a.2 = b.2 ∧ a.1 ≤ b.1))
        (simList ⟨[[0, 1], [1, 0]]⟩ [(1 : ℚ), 0] 2)) := by
  have hq : sqNorm [(1 : ℚ), 0] = 1 := by norm_num [sqNorm]
  have hv : ∀ v ∈ ([[0, 1], [1, 0]] : List Vec), sqNorm v = 1 := by
    norm_num [List.forall_mem_cons, sqNorm]
  have hok : search_faiss_index (fun _ => [(1 : ℚ), 0]) "query"
      (some ⟨[[0, 1], [1, 0]]⟩) (some [(10 : ℕ), 20]) 2 = .ok [(20, 1), (10, -1)] := by
    norm_num [search_faiss_index, simList, FaissIndex.search, searchHits,
      scoredList, scoredFrom, sqDist, entryLE, collectRecs, dfIloc,
      List.insertionSort, List.orderedInsert, padDist]
  exact ⟨⟨hq, hv, hok⟩,
    C5_ranking (fun _ => [(1 : ℚ), 0]) "query" ⟨[[0, 1], [1, 0]]⟩
      [(10 : ℕ), 20] 2 [(20, 1), (10, -1)] hq hv hok⟩

/-- C6 counterexample: on the raw text "1/2" the code deletes the interior
slash and derives the price 12, while stripping only thousands-separator
commas and a trailing slash-hyphen suffix (the claim's reading) leaves an
unparsable "1/2" and yields the default 0. -/
theorem C6_counterexample :
    cleanPrice (some "1/2") = 12 ∧ cleanPriceSpecStyle (some "1/2") = 0 ∧
    cleanPrice (some "1/2") ≠ cleanPriceSpecStyle (some "1/2") := by
  refine ⟨by decide, by decide, by decide⟩

/-- C6 amended: the derived price deletes every comma, slash and hyphen
occurring anywhere in the raw text (not only separator commas and a
trailing currency suffix), trims whitespace and coerces, defaulting to 0
when the text is absent or unparsable; the two raw texts named by the
claim still yield 1000 and 5000. -/
theorem C6_amended :
    cleanPrice (some "1,000/-") = 1000 ∧ cleanPrice (some "5000") = 5000 ∧
    cleanPrice none = 0 ∧ cleanPrice (some "Free") = 0 ∧
    cleanPrice (some "1/2") = 12 ∧ cleanPrice (some "2021-22") = 202122 := by
  refine ⟨by decide, by decide, by decide, by decide, by decide, by decide⟩

/-- C7 counterexample: a recommender whose loaded index and table both
have zero entries still reports is_ready() = true, so readiness does not
require non-emptiness as claimed. -/
theorem C7_counterexample :
    (CourseRecommender.mk (α := ℕ) (some (FaissIndex.mk [])) (some [])).is_ready
      = true ∧
    (FaissIndex.mk []).ntotal = 0 ∧ ([] : List ℕ).length = 0 := by
  refine ⟨rfl, rfl, rfl⟩

/-- C7 amended: is_ready() is true exactly when both artifacts were
successfully loaded (both non-None), regardless of emptiness. -/
theorem C7_amended {α : Type} (s : Storage α) :
    (CourseRecommender.init s).is_ready = true ↔
      (s.course_index.isSome = true ∧ s.processed_courses.isSome = true) := by
  obtain ⟨ci, pc⟩ := s
  cases ci <;> cases pc <;>
    simp [CourseRecommender.init, load_faiss_index, CourseRecommender.is_ready]

/-- C7 amended, witness: loading an empty index and empty table yields a
recommender that reports ready. -/
theorem C7_amended_witness :
    (CourseRecommender.init (Storage.mk (α := ℕ) (some (FaissIndex.mk []))
        (some []))).is_ready = true :=
  (C7_amended _).mpr ⟨rfl, rfl⟩

/-- C8 counterexample: the caller-visible return value of a not-ready
recommender equals that of a ready recommender queried with k = 0 (both
are the bare empty ok-list), so no distinct NotInitialized condition is
surfaced to the caller. -/
theorem C8_counterexample :
    (CourseRecommender.mk (α := ℕ) none none).is_ready = false ∧
    (CourseRecommender.mk (α := ℕ) (some ⟨[[(1 : ℚ), 0]]⟩) (some [7])).is_ready
      = true ∧
    CourseRecommender.get_recommendations (fun _ => [(1 : ℚ), 0])
        (CourseRecommender.mk (α := ℕ) none none) "python" 3 =
      CourseRecommender.get_recommendations (fun _ => [(1 : ℚ), 0])
        (CourseRecommender.mk (α := ℕ) (some ⟨[[(1 : ℚ), 0]]⟩) (some [7]))
        "python" 0 := by
  refine ⟨rfl, rfl, ?_⟩
  norm_num [CourseRecommender.get_recommendations, search_faiss_index, simList,
    FaissIndex.search, searchHits, scoredList, scoredFrom, collectRecs,
    List.insertionSort, List.orderedInsert]

/-- C8 amended: whenever is_ready() is false, get_recommendations returns
the plain empty ok-list (after only logging to the console); the returned
value carries no NotInitialized marker. -/
theorem C8_amended {α : Type} (encode : String → Vec) (r : CourseRecommender α)
    (query : String) (k : ℤ) (h : r.is_ready = false) :
    CourseRecommender.get_recommendations encode r query k = .ok [] := by
  obtain ⟨ci, pc⟩ := r
  cases ci <;> cases pc <;>
    simp_all [CourseRecommender.is_ready, CourseRecommender.get_recommendations]

/-- C8 amended, witness: the fully unloaded recommender is not ready and
returns the empty ok-list. -/
theorem C8_amended_witness :
    (CourseRecommender.mk (α := ℕ) none none).is_ready = false ∧
    CourseRecommender.get_recommendations (fun _ => [(1 : ℚ), 0])
        (CourseRecommender.mk (α := ℕ) none none) "python" 5 = .ok [] :=
  ⟨rfl, C8_amended (fun _ => [(1 : ℚ), 0]) _ "python" 5 rfl⟩

/-- C9: the claim says a zero-entry index yields an empty list, not an
error. On the consistent empty pair (0-entry index, empty table) with
k = 1, faiss pads with label -1, the guard accepts -1 < 0, and
df.iloc[-1] on the empty table raises IndexError, so the call errors. -/
theorem C9_code_eval :
    (FaissIndex.mk []).ntotal = 0 ∧
    search_faiss_index (fun _ => [(1 : ℚ), 0]) "query" (some ⟨[]⟩)
        (some ([] : List ℕ)) 1 = .error "IndexError" := by
  refine ⟨rfl, ?_⟩
  norm_num [search_faiss_index, simList, FaissIndex.search, searchHits,
    scoredList, scoredFrom, entryLE, collectRecs, dfIloc,
    List.insertionSort, List.orderedInsert, padDist, Int.toNat_ofNat,
    List.replicate]

/-- C10: whenever the index reports the sentinel position -1 for a hit
over a non-empty metadata table, the filter idx < len(df) accepts it and
the returned list contains the last metadata row paired with that hit's
converted score. -/
theorem C10_padding_hit {α : Type} (encode : String → Vec) (query : String)
    (ix : FaissIndex) (rows : List α) (k : ℤ) (d : ℚ) (recs : List (α × ℚ))
    (hne : rows ≠ [])
    (hmem : ((-1 : ℤ), d) ∈ ix.search (encode query) k)
    (hok : search_faiss_index encode query (some ix) (some rows) k = .ok recs) :
    ((-1 : ℤ) < (rows.length : ℤ)) ∧
    (rows.getLast hne, (2 - d * d) / 2) ∈ recs := by
  have hlen : 0 < rows.length := List.length_pos.mpr hne
  constructor
  · omega
  · have hok' : collectRecs rows (simList ix (encode query) k) = .ok recs := hok
    have hmem' : ((-1 : ℤ), (2 - d * d) / 2) ∈ simList ix (encode query) k :=
      List.mem_map_of_mem (fun p => (p.1, (2 - p.2 * p.2) / 2)) hmem
    exact collectRecs_mem rows _ recs (-1) ((2 - d * d) / 2) _ hok' hmem'
      (dfIloc_neg_one rows hne)

/-- C10 witness: corpus of one vector, k = 2; the faiss output contains
the padding row (-1, padDist) and the result list contains the last (only)
metadata row 5 paired with the padding row's converted score. -/
theorem C10_padding_hit_witness :
    (([(5 : ℕ)] : List ℕ) ≠ [] ∧
      ((-1 : ℤ), padDist) ∈ (FaissIndex.mk [[(1 : ℚ), 0]]).search [(1 : ℚ), 0] 2 ∧
      search_faiss_index (fun _ => [(1 : ℚ), 0]) "query" (some ⟨[[1, 0]]⟩)
          (some [(5 : ℕ)]) 2 =
        .ok [(5, 1), (5, (2 - padDist * padDist) / 2)]) ∧
    ((5 : ℕ), (2 - padDist * padDist) / 2) ∈
      [((5 : ℕ), (1 : ℚ)), (5, (2 - padDist * padDist) / 2)] := by
  have hne : ([(5 : ℕ)] : List ℕ) ≠ [] := by simp
  have hmem : ((-1 : ℤ), padDist) ∈ (FaissIndex.mk [[(1 : ℚ), 0]]).search
      [(1 : ℚ), 0] 2 := by
    norm_num [FaissIndex.search, searchHits, scoredList, scoredFrom, sqDist,
      entryLE, List.insertionSort, List.orderedInsert, padDist, Int.toNat_ofNat,
      List.replicate]
  have hok : search_faiss_index (fun _ => [(1 : ℚ), 0]) "query"
      (some ⟨[[1, 0]]⟩) (some [(5 : ℕ)]) 2 =
        .ok [(5, 1), (5, (2 - padDist * padDist) / 2)] := by
    norm_num [search_faiss_index, simList, FaissIndex.search, searchHits,
      scoredList, scoredFrom, sqDist, entryLE, collectRecs, dfIloc,
      List.insertionSort, List.orderedInsert, padDist, Int.toNat_ofNat,
      List.replicate]
  exact ⟨⟨hne, hmem, hok⟩,
    (C10_padding_hit (fun _ => [(1 : ℚ), 0]) "query" ⟨[[1, 0]]⟩ [(5 : ℕ)] 2
      padDist [(5, 1), (5, (2 - padDist * padDist) / 2)] hne hmem hok).2⟩

end CourseRec
